import Mathlib

/-!
Verification of the two reporting/smoke-test scripts of this repository:
`analyze_knowledge.py` (KnowledgeReportTool) and `test_medical_ai.py`
(EndpointSmokeTestTool).  The scripts are shallowly embedded: JSON records
become structures with `Option` fields (a missing key is `none`), the
interleaved `print` calls become an accumulated list of structured output
items, and the Python `KeyError` that a missing field raises becomes an
explicit error value recording at which stage of the report and on which
key the lookup failed.  Numeric confidences are modelled as rationals.
-/

namespace KnowledgeReport

/-- A discovery record as read from `data/knowledge_base.json`.  Every field
is optional because JSON records may lack keys; `d['confidence']` etc. in
the Python source raise `KeyError` exactly when the field is `none` here. -/
structure Discovery where
  title : Option String
  confidence : Option ℚ
  status : Option String
  timestamp : Option String
deriving DecidableEq, Repr

/-- The parsed top-level JSON object.  `discoveries = none` models a JSON
object without a `discoveries` key; `kb.get('discoveries', [])` becomes
`Option.getD`. -/
structure KnowledgeBase where
  discoveries : Option (List Discovery)
deriving DecidableEq, Repr

/-- Which record field a failed lookup was for. -/
inductive ReportKey where
  | title
  | confidence
  | status
  | timestamp
deriving DecidableEq, Repr

/-- The stage of the report at which a lookup error is raised: the
confidence-averaging comprehension (line 19 of the source), the status
Counter (line 24), or the latest-5 printing loop (lines 31-35). -/
inductive ReportStage where
  | avgStage
  | breakdownStage
  | latestStage
deriving DecidableEq, Repr

/-- A `KeyError` raised by the report: the stage it was raised in and the
missing key. -/
structure ReportError where
  stage : ReportStage
  key : ReportKey
deriving DecidableEq, Repr

/-- The percentage with one decimal digit, in tenths of a percent, that
Python's `:.1%` format prints for the value `q`.  (Python rounds the
underlying float with its default formatting; on the exact rational this
is rounding to the nearest tenth of a percent.) -/
def percent1 (q : ℚ) : ℤ := round (1000 * q)

/-- Render tenths of a percent the way `:.1%` prints them, e.g.
`renderPercent1 700 = "70.0%"`. -/
def renderPercent1 (t : ℤ) : String :=
  toString (t / 10) ++ "." ++ toString (t % 10) ++ "%"

/-- One printed line of the report that carries record data.  The header,
separator and section-title lines carry no data and are omitted. -/
inductive OutputItem where
  | total (n : Nat)
  | avg (s : String)
  | breakdownLine (status : String) (count : Nat)
  | latestTitle (idx : Nat) (title : String)
  | latestConfidence (s : String)
  | latestStatus (status : String)
  | latestTime (ts : String)
deriving DecidableEq, Repr

/-- One step of Python's `collections.Counter` built from an iterable:
dict semantics keep keys in insertion order of first occurrence, so a
fresh status is appended and a seen one has its count bumped. -/
def counterInsert (acc : List (String × Nat)) (s : String) : List (String × Nat) :=
  if acc.any (fun p => p.1 = s) then
    acc.map (fun p => if p.1 = s then (p.1, p.2 + 1) else p)
  else
    acc ++ [(s, 1)]

/-- `Counter(statuses)` as the ordered association list it iterates as. -/
def counter (ss : List String) : List (String × Nat) :=
  ss.foldl counterInsert []

/-- Extract one field from every record, failing (like the generator
expressions on lines 19 and 24) as soon as any record lacks it. -/
def getAll {α : Type} (f : Discovery → Option α) : List Discovery → Option (List α)
  | [] => some []
  | d :: ds =>
    match f d, getAll f ds with
    | some x, some xs => some (x :: xs)
    | _, _ => none

/-- The lines printed for one record of the latest-5 loop (source lines
31-35): the four fields are accessed in order title, confidence, status,
timestamp, each printed as soon as it is read, so a missing field keeps
the lines already printed and raises a `KeyError` in the latest stage. -/
def emitLatest (idx : Nat) (d : Discovery) : List OutputItem × Option ReportError :=
  match d.title with
  | none => ([], some ⟨ReportStage.latestStage, ReportKey.title⟩)
  | some t =>
    match d.confidence with
    | none => ([OutputItem.latestTitle idx t], some ⟨ReportStage.latestStage, ReportKey.confidence⟩)
    | some c =>
      match d.status with
      | none =>
          ([OutputItem.latestTitle idx t, OutputItem.latestConfidence (renderPercent1 (percent1 c))],
           some ⟨ReportStage.latestStage, ReportKey.status⟩)
      | some s =>
        match d.timestamp with
        | none =>
            ([OutputItem.latestTitle idx t, OutputItem.latestConfidence (renderPercent1 (percent1 c)),
              OutputItem.latestStatus s],
             some ⟨ReportStage.latestStage, ReportKey.timestamp⟩)
        | some ts =>
            ([OutputItem.latestTitle idx t, OutputItem.latestConfidence (renderPercent1 (percent1 c)),
              OutputItem.latestStatus s, OutputItem.latestTime ts],
             none)

/-- The latest-5 loop `for i, disc in enumerate(discoveries[-5:], 1)`:
1-based index, stops (the exception propagates) at the first record with a
missing field, keeping the lines printed so far. -/
def emitLatestLoop : Nat → List Discovery → List OutputItem × Option ReportError
  | _, [] => ([], none)
  | i, d :: ds =>
    let r := emitLatest i d
    match r.2 with
    | some e => (r.1, some e)
    | none =>
      let rest := emitLatestLoop (i + 1) ds
      (r.1 ++ rest.1, rest.2)

/-- The whole report of `analyze_knowledge.py`: the data-carrying lines it
prints, and the `KeyError` (if any) that aborts it.  Mirrors the source:
total printed unconditionally; if the list is nonempty, the average line,
then the status breakdown, then the latest-5 loop over
`discoveries[-5:]`. -/
def runReport (kb : KnowledgeBase) : List OutputItem × Option ReportError :=
  let discoveries := kb.discoveries.getD []
  let out0 : List OutputItem := [OutputItem.total discoveries.length]
  if discoveries.isEmpty then
    (out0, none)
  else
    match getAll Discovery.confidence discoveries with
    | none => (out0, some ⟨ReportStage.avgStage, ReportKey.confidence⟩)
    | some confidences =>
      let avg := confidences.sum / (confidences.length : ℚ)
      let out1 := out0 ++ [OutputItem.avg (renderPercent1 (percent1 avg))]
      match getAll Discovery.status discoveries with
      | none => (out1, some ⟨ReportStage.breakdownStage, ReportKey.status⟩)
      | some statuses =>
        let out2 := out1 ++ (counter statuses).map (fun p => OutputItem.breakdownLine p.1 p.2)
        let r := emitLatestLoop 1 (discoveries.drop (discoveries.length - 5))
        (out2 ++ r.1, r.2)

/-- A fully-present discovery record (all four keys present), the shape the
data model of the spec describes. -/
structure DiscoveryW where
  title : String
  confidence : ℚ
  status : String
  timestamp : String
deriving DecidableEq, Repr

/-- Forget the presence information. -/
def DiscoveryW.toDiscovery (w : DiscoveryW) : Discovery :=
  ⟨some w.title, some w.confidence, some w.status, some w.timestamp⟩

/-- A knowledge base whose records are all fully present. -/
def kbOf (ws : List DiscoveryW) : KnowledgeBase :=
  ⟨some (ws.map DiscoveryW.toDiscovery)⟩

/-- The status-breakdown pairs among the output, in print order. -/
def breakdownOf (out : List OutputItem) : List (String × Nat) :=
  out.filterMap (fun it =>
    match it with
    | OutputItem.breakdownLine s n => some (s, n)
    | _ => none)

/-- Whether an output item belongs to the latest-5 section. -/
def isLatestItem : OutputItem → Bool
  | OutputItem.latestTitle _ _ => true
  | OutputItem.latestConfidence _ => true
  | OutputItem.latestStatus _ => true
  | OutputItem.latestTime _ => true
  | _ => false

/-- The latest-5 section of the output, in print order. -/
def latestOf (out : List OutputItem) : List OutputItem :=
  out.filter isLatestItem

/-- The distinct elements of a list in order of first occurrence — the
iteration order of a Python dict/Counter built by insertion. -/
def firstOccur (ss : List String) : List String :=
  ss.foldl (fun acc s => if s ∈ acc then acc else acc ++ [s]) []

/-- The four lines the latest-5 loop prints for a fully-present record. -/
def latestEntryOut (idx : Nat) (w : DiscoveryW) : List OutputItem :=
  [OutputItem.latestTitle idx w.title,
   OutputItem.latestConfidence (renderPercent1 (percent1 w.confidence)),
   OutputItem.latestStatus w.status,
   OutputItem.latestTime w.timestamp]

/-- The number of latest-5 entries in the output: each entry starts with
exactly one title line. -/
def entryCount (out : List OutputItem) : Nat :=
  out.countP (fun it =>
    match it with
    | OutputItem.latestTitle _ _ => true
    | _ => false)

/-- A concrete 7-record knowledge base used to exercise the latest-5
window. -/
def ws7 : List DiscoveryW :=
  [⟨"A", 1/2, "s", "t"⟩, ⟨"B", 1/2, "s", "t"⟩, ⟨"C", 1/2, "s", "t"⟩,
   ⟨"D", 1/2, "s", "t"⟩, ⟨"E", 1/2, "s", "t"⟩, ⟨"F", 1/2, "s", "t"⟩,
   ⟨"G", 1/2, "s", "t"⟩]

end KnowledgeReport

namespace SmokeTest

/-- One entry of the `test_cases` literal in `test_medical_ai.py`. -/
structure TestCase where
  name : String
  text : String
  expected : String
deriving DecidableEq, Repr

/-- The fixed list of 5 test cases (source lines 6-32). -/
def test_cases : List TestCase :=
  [{ name := "Cardiac Emergency",
     text := "Severe chest pain, shortness of breath, sweating, pain radiating to jaw",
     expected := "cardiac" },
   { name := "Stroke Symptoms",
     text := "Sudden facial drooping, arm weakness, speech difficulty, confusion",
     expected := "neurological" },
   { name := "Appendicitis",
     text := "Right lower quadrant pain, nausea, vomiting, fever, rebound tenderness",
     expected := "gastrointestinal" },
   { name := "Pneumonia",
     text := "High fever, productive cough, chest pain on breathing, fatigue",
     expected := "respiratory" },
   { name := "Diabetic Emergency",
     text := "Excessive thirst, frequent urination, blurred vision, fruity breath odor",
     expected := "endocrine" }]

/-- The `analysis` object of a prediction response; each field is optional
because the JSON body may lack the key (`result['analysis']['condition']`
etc. raise `KeyError` exactly when the field is `none`). -/
structure Analysis where
  condition : Option String
  urgency : Option String
  recommendations : Option (List String)
deriving DecidableEq, Repr

/-- A parsed 200-response body; `analysis = none` models a body without the
`analysis` key. -/
structure PredictionResponse where
  analysis : Option Analysis
deriving DecidableEq, Repr

/-- What one `requests.post` call to the endpoint yields for a given
request text: either an exception (connection refused, timeout, ...) with
its message, or a response with a status code and a parsed JSON body. -/
inductive HttpOutcome where
  | exception (msg : String)
  | response (statusCode : Nat) (body : PredictionResponse)
deriving DecidableEq, Repr

/-- The status strings the source stores in its result dicts. -/
def PASS_str : String := "✅ PASS"

/-- Status string for a non-200 response. -/
def FAIL_str : String := "❌ FAIL"

/-- Status string for an exception during the guarded block. -/
def ERROR_str : String := "❌ ERROR"

/-- The status recorded for one case, given the outcome of its HTTP call.
The whole body of the per-case `try` (source lines 44-61) is modelled,
including the key accesses on lines 54-56: a missing `analysis` key or
sub-key raises a `KeyError`, which `except Exception` (line 62) catches,
so the case records ERROR. -/
def classify (o : HttpOutcome) : String :=
  match o with
  | HttpOutcome.exception _ => ERROR_str
  | HttpOutcome.response code body =>
    if code = 200 then
      match body.analysis with
      | none => ERROR_str
      | some a =>
        match a.condition with
        | none => ERROR_str
        | some _ =>
          match a.urgency with
          | none => ERROR_str
          | some _ =>
            match a.recommendations with
            | none => ERROR_str
            | some _ => PASS_str
    else
      FAIL_str

/-- One entry of the `results` list: the case name and its status string. -/
structure TestResult where
  caseName : String
  status : String
deriving DecidableEq, Repr

/-- Process one case: POST the case text (the environment `env` maps the
posted text to the call's outcome) and record exactly one result. -/
def runCase (env : String → HttpOutcome) (c : TestCase) : TestResult :=
  { caseName := c.name, status := classify (env c.text) }

/-- The whole test loop: one result appended per case, in run order. -/
def runSuite (env : String → HttpOutcome) (cases : List TestCase) : List TestResult :=
  cases.map (runCase env)

/-- `passed = sum(1 for r in results if "PASS" in r['status'])` — Python's
substring membership test on the status string. -/
def passedCount (results : List TestResult) : Nat :=
  (results.filter (fun r => decide ("PASS".toList <:+: r.status.toList))).length

/-- The final summary line `passed/len(test_cases)`: numerator and
denominator as printed. -/
def summaryLine (env : String → HttpOutcome) : Nat × Nat :=
  (passedCount (runSuite env test_cases), test_cases.length)

end SmokeTest

namespace KnowledgeReport

theorem getAll_confidence_map (ws : List DiscoveryW) :
    getAll Discovery.confidence (ws.map DiscoveryW.toDiscovery) = some (ws.map DiscoveryW.confidence) := by
  induction ws with
  | nil => rfl
  | cons w ws ih => simp [getAll, DiscoveryW.toDiscovery, ih]

theorem getAll_status_map (ws : List DiscoveryW) :
    getAll Discovery.status (ws.map DiscoveryW.toDiscovery) = some (ws.map DiscoveryW.status) := by
  induction ws with
  | nil => rfl
  | cons w ws ih => simp [getAll, DiscoveryW.toDiscovery, ih]

theorem getAll_eq_none_iff {α : Type} (f : Discovery → Option α) (ds : List Discovery) :
    getAll f ds = none ↔ ∃ d ∈ ds, f d = none := by
  induction ds with
  | nil => simp [getAll]
  | cons d ds ih =>
    cases hd : f d with
    | none => simp [getAll, hd]
    | some x =>
      cases hds : getAll f ds with
      | none =>
        simp only [getAll, hd, hds]
        constructor
        · intro _
          obtain ⟨d', hmem, hnone⟩ := ih.mp hds
          exact ⟨d', List.mem_cons_of_mem _ hmem, hnone⟩
        · intro _ ; trivial
      | some xs =>
        simp only [getAll, hd, hds]
        constructor
        · intro h ; exact absurd h (by simp)
        · intro hex
          obtain ⟨d', hmem, hnone⟩ := hex
          rcases List.mem_cons.mp hmem with rfl | hmem'
          · exact absurd hnone (by simp [hd])
          · have : getAll f ds = none := ih.mpr ⟨d', hmem', hnone⟩
            simp [this] at hds

theorem emitLatest_toDiscovery (i : Nat) (w : DiscoveryW) :
    emitLatest i w.toDiscovery = (latestEntryOut i w, none) := rfl

theorem emitLatestLoop_map (ws : List DiscoveryW) :
    ∀ i, emitLatestLoop i (ws.map DiscoveryW.toDiscovery) =
      ((List.enumFrom i ws).flatMap (fun p => latestEntryOut p.1 p.2), none) := by
  induction ws with
  | nil => intro i ; rfl
  | cons w ws ih =>
    intro i
    simp only [List.map_cons, emitLatestLoop, emitLatest_toDiscovery, ih (i + 1),
      List.enumFrom, List.flatMap_cons]

/-- `runReport` on a knowledge base of fully-present records, in closed
form. -/
theorem runReport_kbOf (ws : List DiscoveryW) (h : ws ≠ []) :
    runReport (kbOf ws) =
      (OutputItem.total ws.length ::
       OutputItem.avg (renderPercent1 (percent1
         ((ws.map DiscoveryW.confidence).sum / ((ws.length : ℚ))))) ::
       ((counter (ws.map DiscoveryW.status)).map (fun p => OutputItem.breakdownLine p.1 p.2) ++
        (List.enumFrom 1 (ws.drop (ws.length - 5))).flatMap (fun p => latestEntryOut p.1 p.2)),
       none) := by
  have hne : ws.map DiscoveryW.toDiscovery ≠ [] := by
    simpa using h
  have hdrop : (ws.map DiscoveryW.toDiscovery).drop (ws.length - 5) =
      (ws.drop (ws.length - 5)).map DiscoveryW.toDiscovery := by
    simp [List.map_drop]
  simp only [runReport, kbOf, Option.getD_some, List.isEmpty_eq_true]
  rw [if_neg hne]
  rw [getAll_confidence_map, getAll_status_map]
  simp only [List.length_map, hdrop, emitLatestLoop_map]
  simp

theorem firstOccur_append_singleton (l : List String) (a : String) :
    firstOccur (l ++ [a]) =
      if a ∈ firstOccur l then firstOccur l else firstOccur l ++ [a] := by
  simp [firstOccur, List.foldl_append]

theorem mem_firstOccur (l : List String) : ∀ a, a ∈ firstOccur l ↔ a ∈ l := by
  induction l using List.reverseRecOn with
  | nil => simp [firstOccur]
  | append_singleton l b ih =>
    intro a
    rw [firstOccur_append_singleton]
    by_cases hb : b ∈ firstOccur l
    · rw [if_pos hb, ih]
      simp only [List.mem_append, List.mem_singleton]
      constructor
      · exact Or.inl
      · rintro (h | rfl)
        · exact h
        · exact (ih a).mp hb
    · rw [if_neg hb]
      simp [ih]

theorem nodup_firstOccur (l : List String) : (firstOccur l).Nodup := by
  induction l using List.reverseRecOn with
  | nil => simp [firstOccur]
  | append_singleton l b ih =>
    rw [firstOccur_append_singleton]
    by_cases hb : b ∈ firstOccur l
    · simpa [hb] using ih
    · simp [hb, List.nodup_append, ih]

theorem counter_append_singleton (l : List String) (a : String) :
    counter (l ++ [a]) = counterInsert (counter l) a := by
  simp [counter, List.foldl_append]

/-- `Counter(statuses)` iterates exactly the distinct statuses in order of
first occurrence, each with its number of occurrences. -/
theorem counter_eq (l : List String) :
    counter l = (firstOccur l).map (fun s => (s, l.count s)) := by
  induction l using List.reverseRecOn with
  | nil => rfl
  | append_singleton l a ih =>
    rw [counter_append_singleton, ih, firstOccur_append_singleton]
    by_cases ha : a ∈ firstOccur l
    · rw [if_pos ha]
      have hany : (((firstOccur l).map (fun s => (s, l.count s))).any
          (fun p => p.1 = a)) = true := by
        simp only [List.any_eq_true, List.mem_map, decide_eq_true_eq]
        exact ⟨(a, l.count a), ⟨a, ha, rfl⟩, rfl⟩
      rw [counterInsert, if_pos hany, List.map_map]
      apply List.map_congr_left
      intro s _
      by_cases hsa : s = a
      · subst hsa
        simp [List.count_append, List.count_cons]
      · simp [hsa, List.count_append, List.count_cons]
    · rw [if_neg ha]
      have hany : (((firstOccur l).map (fun s => (s, l.count s))).any
          (fun p => p.1 = a)) = false := by
        simp only [List.any_eq_false, List.mem_map, decide_eq_true_eq]
        rintro p ⟨s, hs, rfl⟩
        intro hcontra
        exact ha (hcontra ▸ hs)
      have hnotmem : a ∉ l := fun hmem => ha ((mem_firstOccur l a).mpr hmem)
      have hcount : (l ++ [a]).count a = 1 := by
        simp [List.count_append, List.count_cons, List.count_eq_zero_of_not_mem hnotmem]
      have hothers : ∀ s ∈ firstOccur l, (l ++ [a]).count s = l.count s := by
        intro s hs
        have hne : s ≠ a := fun h => ha (h ▸ hs)
        simp [List.count_append, List.count_cons, hne]
      have hrhs : (firstOccur l ++ [a]).map (fun s => (s, (l ++ [a]).count s)) =
          (firstOccur l).map (fun s => (s, l.count s)) ++ [(a, 1)] := by
        rw [List.map_append]
        congr 1
        · exact List.map_congr_left (fun s hs => by rw [hothers s hs])
        · simp [hcount, List.count_eq_zero_of_not_mem hnotmem]
      rw [hrhs, counterInsert, if_neg (by simp [hany])]

theorem sum_map_ite_not_mem (k : List String) (a : String) (h : a ∉ k) :
    (k.map (fun s => if s = a then (1 : ℕ) else 0)).sum = 0 := by
  induction k with
  | nil => rfl
  | cons b k ih =>
    have hba : b ≠ a := fun hb => h (hb ▸ List.mem_cons_self b k)
    have hk : a ∉ k := fun hk => h (List.mem_cons_of_mem _ hk)
    simp [hba, ih hk]

theorem sum_map_ite_mem (k : List String) (a : String) (hnd : k.Nodup) (h : a ∈ k) :
    (k.map (fun s => if s = a then (1 : ℕ) else 0)).sum = 1 := by
  induction k with
  | nil => exact absurd h (List.not_mem_nil a)
  | cons b k ih =>
    by_cases hab : b = a
    · subst hab
      have hnot : b ∉ k := (List.nodup_cons.mp hnd).1
      simp [sum_map_ite_not_mem k b hnot]
    · have hmem : a ∈ k := by
        rcases List.mem_cons.mp h with h1 | h2
        · exact absurd h1.symm hab
        · exact h2
      simp [hab, ih (List.nodup_cons.mp hnd).2 hmem]

/-- The counts printed by the status breakdown sum to the number of
records. -/
theorem sum_counts_firstOccur (l : List String) :
    ((firstOccur l).map (fun s => l.count s)).sum = l.length := by
  induction l using List.reverseRecOn with
  | nil => rfl
  | append_singleton l a ih =>
    rw [firstOccur_append_singleton]
    by_cases ha : a ∈ firstOccur l
    · rw [if_pos ha]
      have hsplit : ∀ s ∈ firstOccur l,
          (l ++ [a]).count s = l.count s + (if s = a then 1 else 0) := by
        intro s _
        by_cases hsa : s = a
        · subst hsa ; simp [List.count_append, List.count_cons]
        · simp [hsa, List.count_append, List.count_cons]
      rw [List.map_congr_left hsplit, List.sum_map_add,
        ih, sum_map_ite_mem (firstOccur l) a (nodup_firstOccur l) ha]
      simp
    · rw [if_neg ha, List.map_append]
      have hnotmem : a ∉ l := fun hmem => ha ((mem_firstOccur l a).mpr hmem)
      have hothers : ∀ s ∈ firstOccur l, (l ++ [a]).count s = l.count s := by
        intro s hs
        have hne : s ≠ a := fun h => ha (h ▸ hs)
        simp [List.count_append, List.count_cons, hne]
      rw [List.map_congr_left hothers]
      have hcount : (l ++ [a]).count a = 1 := by
        simp [List.count_append, List.count_cons, List.count_eq_zero_of_not_mem hnotmem]
      simp [hcount, ih, List.count_eq_zero_of_not_mem hnotmem]

theorem breakdownOf_map_line (bd : List (String × Nat)) :
    breakdownOf (bd.map (fun p => OutputItem.breakdownLine p.1 p.2)) = bd := by
  induction bd with
  | nil => rfl
  | cons p bd ih => simp [breakdownOf, List.filterMap_cons] at ih ⊢ ; exact ih

theorem breakdownOf_flatMap_latest (rs : List (Nat × DiscoveryW)) :
    breakdownOf (rs.flatMap (fun p => latestEntryOut p.1 p.2)) = [] := by
  induction rs with
  | nil => rfl
  | cons r rs ih =>
    simp only [List.flatMap_cons, breakdownOf, List.filterMap_append] at ih ⊢
    simp only [latestEntryOut, List.filterMap_cons, List.filterMap_nil]
    exact ih

/-- The status-breakdown section of a full run, featuring only the
Counter's pairs. -/
theorem breakdownOf_runReport (ws : List DiscoveryW) (h : ws ≠ []) :
    breakdownOf (runReport (kbOf ws)).1 = counter (ws.map DiscoveryW.status) := by
  rw [runReport_kbOf ws h]
  simp only [breakdownOf, List.filterMap_cons, List.filterMap_append]
  rw [show (List.filterMap _ ((counter (ws.map DiscoveryW.status)).map
      (fun p => OutputItem.breakdownLine p.1 p.2)) : List (String × Nat)) =
      breakdownOf ((counter (ws.map DiscoveryW.status)).map
        (fun p => OutputItem.breakdownLine p.1 p.2)) from rfl]
  rw [breakdownOf_map_line]
  rw [show (List.filterMap _ ((List.enumFrom 1 (ws.drop (ws.length - 5))).flatMap
      (fun p => latestEntryOut p.1 p.2)) : List (String × Nat)) =
      breakdownOf ((List.enumFrom 1 (ws.drop (ws.length - 5))).flatMap
        (fun p => latestEntryOut p.1 p.2)) from rfl]
  rw [breakdownOf_flatMap_latest]
  simp

/-- Claim C5: for every non-empty discoveries list (all keys present), the
status breakdown prints one pair per distinct status, in insertion order
of first occurrence — the distinct statuses in first-occurrence order,
each with its occurrence count — and the printed counts sum exactly to
the total number of discoveries. -/
theorem claim_C5 (ws : List DiscoveryW) (h : ws ≠ []) :
    breakdownOf (runReport (kbOf ws)).1 =
      (firstOccur (ws.map DiscoveryW.status)).map
        (fun s => (s, (ws.map DiscoveryW.status).count s)) ∧
    (firstOccur (ws.map DiscoveryW.status)).Nodup ∧
    (∀ s, s ∈ firstOccur (ws.map DiscoveryW.status) ↔ s ∈ ws.map DiscoveryW.status) ∧
    ((breakdownOf (runReport (kbOf ws)).1).map Prod.snd).sum = ws.length := by
  have hb := breakdownOf_runReport ws h
  refine ⟨by rw [hb, counter_eq], nodup_firstOccur _, mem_firstOccur _, ?_⟩
  rw [hb, counter_eq, List.map_map]
  have hmaps : ((firstOccur (ws.map DiscoveryW.status)).map
      (Prod.snd ∘ fun s => (s, (ws.map DiscoveryW.status).count s))) =
      (firstOccur (ws.map DiscoveryW.status)).map
        (fun s => (ws.map DiscoveryW.status).count s) := rfl
  rw [hmaps, sum_counts_firstOccur]
  simp

/-- Witness for C5 on a concrete run with statuses in mixed order. -/
theorem claim_C5_witness :
    breakdownOf (runReport (kbOf
        [⟨"A", 1/2, "verified", "t1"⟩, ⟨"B", 1/2, "pending", "t2"⟩,
         ⟨"C", 1/2, "verified", "t3"⟩])).1 =
      [("verified", 2), ("pending", 1)] ∧
    ((breakdownOf (runReport (kbOf
        [⟨"A", 1/2, "verified", "t1"⟩, ⟨"B", 1/2, "pending", "t2"⟩,
         ⟨"C", 1/2, "verified", "t3"⟩])).1).map Prod.snd).sum = 3 := by
  have h := claim_C5
    [⟨"A", 1/2, "verified", "t1"⟩, ⟨"B", 1/2, "pending", "t2"⟩,
     ⟨"C", 1/2, "verified", "t3"⟩] (by simp)
  refine ⟨?_, h.2.2.2⟩
  rw [h.1]
  rfl

theorem latestOf_map_line (bd : List (String × Nat)) :
    latestOf (bd.map (fun p => OutputItem.breakdownLine p.1 p.2)) = [] := by
  induction bd with
  | nil => rfl
  | cons p bd ih => simpa [latestOf, isLatestItem] using ih

theorem latestOf_flatMap_latest (rs : List (Nat × DiscoveryW)) :
    latestOf (rs.flatMap (fun p => latestEntryOut p.1 p.2)) =
      rs.flatMap (fun p => latestEntryOut p.1 p.2) := by
  induction rs with
  | nil => rfl
  | cons r rs ih =>
    simp only [List.flatMap_cons, latestOf, List.filter_append] at ih ⊢
    rw [ih]
    simp [latestEntryOut, isLatestItem]

/-- The latest-5 section of a full run is exactly what the latest loop
emits. -/
theorem latestOf_runReport (ws : List DiscoveryW) (h : ws ≠ []) :
    latestOf (runReport (kbOf ws)).1 =
      (List.enumFrom 1 (ws.drop (ws.length - 5))).flatMap (fun p => latestEntryOut p.1 p.2) := by
  rw [runReport_kbOf ws h]
  simp only [latestOf, List.filter_cons, List.filter_append]
  rw [show (List.filter isLatestItem ((counter (ws.map DiscoveryW.status)).map
      (fun p => OutputItem.breakdownLine p.1 p.2))) =
      latestOf ((counter (ws.map DiscoveryW.status)).map
        (fun p => OutputItem.breakdownLine p.1 p.2)) from rfl]
  rw [latestOf_map_line]
  rw [show (List.filter isLatestItem ((List.enumFrom 1 (ws.drop (ws.length - 5))).flatMap
      (fun p => latestEntryOut p.1 p.2))) =
      latestOf ((List.enumFrom 1 (ws.drop (ws.length - 5))).flatMap
        (fun p => latestEntryOut p.1 p.2)) from rfl]
  rw [latestOf_flatMap_latest]
  simp [isLatestItem]

theorem entryCount_flatMap (rs : List (Nat × DiscoveryW)) :
    entryCount (rs.flatMap (fun p => latestEntryOut p.1 p.2)) = rs.length := by
  induction rs with
  | nil => rfl
  | cons r rs ih =>
    simp only [List.flatMap_cons, entryCount, List.countP_append] at ih ⊢
    rw [ih]
    simp [latestEntryOut, List.countP_cons, List.length_cons]
    omega

theorem enumFrom_map_fst {α : Type} : ∀ (i : Nat) (l : List α),
    (List.enumFrom i l).map Prod.fst = List.range' i l.length := by
  intro i l
  induction l generalizing i with
  | nil => rfl
  | cons x l ih => simp [List.enumFrom, List.range', ih]

/-- Claim C6: for every discoveries list of length N at least 1 (all keys
present), the latest section prints exactly `min N 5` entries, which are
the last `min N 5` records of the list in their original order, indexed
1-based from 1 regardless of their positions in the full list. -/
theorem claim_C6 (ws : List DiscoveryW) (h : ws ≠ []) :
    latestOf (runReport (kbOf ws)).1 =
      (List.enumFrom 1 (ws.drop (ws.length - 5))).flatMap (fun p => latestEntryOut p.1 p.2) ∧
    ws.drop (ws.length - 5) = (ws.reverse.take 5).reverse ∧
    (ws.drop (ws.length - 5)).length = min ws.length 5 ∧
    entryCount (latestOf (runReport (kbOf ws)).1) = min ws.length 5 ∧
    (List.enumFrom 1 (ws.drop (ws.length - 5))).map Prod.fst =
      List.range' 1 (min ws.length 5) := by
  have hlen : (ws.drop (ws.length - 5)).length = min ws.length 5 := by
    rw [List.length_drop]
    omega
  refine ⟨latestOf_runReport ws h, ?_, hlen, ?_, ?_⟩
  · have := List.rtake_eq_reverse_take_reverse (l := ws) (n := 5)
    simpa [List.rtake] using this
  · rw [latestOf_runReport ws h, entryCount_flatMap]
    simp [hlen]
  · rw [enumFrom_map_fst, hlen]

/-- Witness for C6 on a 7-record list: the latest section has exactly 5
entries, indexed 1 through 5. -/
theorem claim_C6_witness :
    entryCount (latestOf (runReport (kbOf ws7)).1) = 5 ∧
    (List.enumFrom 1 (ws7.drop (ws7.length - 5))).map Prod.fst = [1, 2, 3, 4, 5] := by
  have h := claim_C6 ws7 (by simp [ws7])
  constructor
  · rw [h.2.2.2.1]
    rfl
  · rw [h.2.2.2.2]
    rfl

/-- Claim C7: on a `discoveries` list of length 0, the report prints the
total 0 and nothing else that carries record data: no average-confidence,
status-breakdown or latest-discoveries lines, and it completes without a
lookup error. -/
theorem claim_C7 : runReport ⟨some []⟩ = ([OutputItem.total 0], none) := rfl

theorem emitLatest_err_stage (i : Nat) (d : Discovery) (e : ReportError)
    (h : (emitLatest i d).2 = some e) : e.stage = ReportStage.latestStage := by
  rcases d with ⟨t, c, s, ts⟩
  cases t <;> cases c <;> cases s <;> cases ts <;> simp_all [emitLatest] <;> simp [← h]

theorem emitLatest_snd_none (i : Nat) (d : Discovery)
    (h : (emitLatest i d).2 = none) :
    (d.title).isSome ∧ (d.confidence).isSome ∧ (d.status).isSome ∧ (d.timestamp).isSome := by
  rcases d with ⟨t, c, s, ts⟩
  cases t <;> cases c <;> cases s <;> cases ts <;> simp_all [emitLatest]

theorem emitLatestLoop_err_stage (rs : List Discovery) :
    ∀ (i : Nat) (e : ReportError),
      (emitLatestLoop i rs).2 = some e → e.stage = ReportStage.latestStage := by
  induction rs with
  | nil =>
    intro i e h
    exact absurd h (by simp [emitLatestLoop])
  | cons d rs ih =>
    intro i e h
    simp only [emitLatestLoop] at h
    cases hm : (emitLatest i d).2 with
    | some e' =>
      rw [hm] at h
      simp only [Option.some.injEq] at h
      exact h ▸ emitLatest_err_stage i d e' hm
    | none =>
      rw [hm] at h
      exact ih (i + 1) e h

theorem emitLatestLoop_err_isSome (rs : List Discovery) :
    ∀ (i : Nat),
      (∃ d ∈ rs, d.title = none ∨ d.confidence = none ∨ d.status = none ∨ d.timestamp = none) →
      ((emitLatestLoop i rs).2).isSome := by
  induction rs with
  | nil =>
    intro i hex
    obtain ⟨d, hmem, _⟩ := hex
    exact absurd hmem (List.not_mem_nil d)
  | cons d rs ih =>
    intro i hex
    simp only [emitLatestLoop]
    cases hm : (emitLatest i d).2 with
    | some e' => rfl
    | none =>
      have hd := emitLatest_snd_none i d hm
      apply ih (i + 1)
      obtain ⟨d', hmem, hbad⟩ := hex
      rcases List.mem_cons.mp hmem with rfl | hmem'
      · rcases hbad with h1 | h1 | h1 | h1 <;> simp [h1] at hd
      · exact ⟨d', hmem', hbad⟩

/-- Where the error (if any) of a run on a nonempty list comes from. -/
theorem runReport_snd (ds : List Discovery) (h : ds ≠ []) :
    (runReport ⟨some ds⟩).2 =
      (match getAll Discovery.confidence ds with
       | none => some ⟨ReportStage.avgStage, ReportKey.confidence⟩
       | some _ =>
         match getAll Discovery.status ds with
         | none => some ⟨ReportStage.breakdownStage, ReportKey.status⟩
         | some _ => (emitLatestLoop 1 (ds.drop (ds.length - 5))).2) := by
  simp only [runReport, Option.getD_some]
  rw [if_neg (by simpa using h)]
  rcases hc : getAll Discovery.confidence ds with _ | cs
  · rfl
  · rcases hs : getAll Discovery.status ds with _ | ss
    · rfl
    · rfl

/-- Claim C9, amended: a missing key is fatal to the run, but the stage
that raises the lookup error is the first one to access the missing key:
a record missing `confidence` aborts the averaging comprehension; with all
confidences present, a record missing `status` aborts the status
breakdown; with confidences and statuses present, a record among the last
5 missing `title` or `timestamp` aborts the latest-discoveries printing. -/
theorem claim_C9 (ds : List Discovery) (h : ds ≠ []) :
    ((∃ d ∈ ds, d.confidence = none) →
      (runReport ⟨some ds⟩).2 = some ⟨ReportStage.avgStage, ReportKey.confidence⟩) ∧
    ((∀ d ∈ ds, (d.confidence).isSome) → (∃ d ∈ ds, d.status = none) →
      (runReport ⟨some ds⟩).2 = some ⟨ReportStage.breakdownStage, ReportKey.status⟩) ∧
    ((∀ d ∈ ds, (d.confidence).isSome) → (∀ d ∈ ds, (d.status).isSome) →
      (∃ d ∈ ds.drop (ds.length - 5), d.title = none ∨ d.timestamp = none) →
      ∃ e, (runReport ⟨some ds⟩).2 = some e ∧ e.stage = ReportStage.latestStage) := by
  have hsnd := runReport_snd ds h
  refine ⟨?_, ?_, ?_⟩
  · intro hex
    have hc : getAll Discovery.confidence ds = none :=
      (getAll_eq_none_iff Discovery.confidence ds).mpr hex
    rw [hsnd, hc]
  · intro hall hex
    have hc : getAll Discovery.confidence ds ≠ none := by
      intro hq
      obtain ⟨d, hmem, hnone⟩ := (getAll_eq_none_iff Discovery.confidence ds).mp hq
      have := hall d hmem
      simp [hnone] at this
    rcases Option.ne_none_iff_exists'.mp hc with ⟨cs, hcs⟩
    have hs : getAll Discovery.status ds = none :=
      (getAll_eq_none_iff Discovery.status ds).mpr hex
    rw [hsnd, hcs, hs]
  · intro hallc halls hex
    have hc : getAll Discovery.confidence ds ≠ none := by
      intro hq
      obtain ⟨d, hmem, hnone⟩ := (getAll_eq_none_iff Discovery.confidence ds).mp hq
      have := hallc d hmem
      simp [hnone] at this
    rcases Option.ne_none_iff_exists'.mp hc with ⟨cs, hcs⟩
    have hs : getAll Discovery.status ds ≠ none := by
      intro hq
      obtain ⟨d, hmem, hnone⟩ := (getAll_eq_none_iff Discovery.status ds).mp hq
      have := halls d hmem
      simp [hnone] at this
    rcases Option.ne_none_iff_exists'.mp hs with ⟨ss, hss⟩
    have hloop : ((emitLatestLoop 1 (ds.drop (ds.length - 5))).2).isSome := by
      apply emitLatestLoop_err_isSome
      obtain ⟨d, hmem, hbad⟩ := hex
      rcases hbad with h1 | h1
      · exact ⟨d, hmem, Or.inl h1⟩
      · exact ⟨d, hmem, Or.inr (Or.inr (Or.inr h1))⟩
    rcases Option.isSome_iff_exists.mp hloop with ⟨e, he⟩
    refine ⟨e, ?_, emitLatestLoop_err_stage _ 1 e he⟩
    rw [hsnd, hcs, hss]
    exact he

/-- Counterexample to C9 as stated: a single record (hence among the last
5) missing only `status` makes the status-breakdown generator raise the
lookup error, not the latest-discoveries printing — which never runs (the
output has no latest-section lines). -/
theorem claim_C9_counterexample :
    (runReport ⟨some [⟨some "t", some 1, none, some "ts"⟩]⟩).2 =
      some ⟨ReportStage.breakdownStage, ReportKey.status⟩ ∧
    ReportStage.breakdownStage ≠ ReportStage.latestStage ∧
    latestOf (runReport ⟨some [⟨some "t", some 1, none, some "ts"⟩]⟩).1 = [] := by
  refine ⟨rfl, by decide, rfl⟩

/-- Witness for the amended C9: a record missing `confidence` aborts the
averaging step with a confidence lookup error. -/
theorem claim_C9_witness :
    (runReport ⟨some [⟨some "t", none, some "v", some "ts"⟩]⟩).2 =
      some ⟨ReportStage.avgStage, ReportKey.confidence⟩ :=
  (claim_C9 [⟨some "t", none, some "v", some "ts"⟩] (by simp)).1
    ⟨⟨some "t", none, some "v", some "ts"⟩, by simp, rfl⟩

/-- Claim C10: when the parsed top-level JSON object has no `discoveries`
key at all, the tool substitutes an empty list: it prints total 0, skips
all per-record sections, and completes normally (no error). -/
theorem claim_C10 : runReport ⟨none⟩ = ([OutputItem.total 0], none) := rfl

/-- Claim C4: for every discoveries list of length at least 1 (with all
keys present, as the data model requires), the printed average confidence
is the arithmetic mean of the `confidence` values rendered as a percentage
with one decimal digit. -/
theorem claim_C4 (ws : List DiscoveryW) (h : ws ≠ []) :
    ((runReport (kbOf ws)).1)[1]? =
      some (OutputItem.avg (renderPercent1 (percent1
        ((ws.map DiscoveryW.confidence).sum / ((ws.length : ℚ)))))) := by
  rw [runReport_kbOf ws h]
  simp

/-- Witness for C4 at the spec's example: confidences 0.8 and 0.6 print as
the average "70.0%". -/
theorem claim_C4_witness :
    ((runReport (kbOf [⟨"A", 4/5, "s", "t1"⟩, ⟨"B", 3/5, "s", "t2"⟩])).1)[1]? =
      some (OutputItem.avg "70.0%") := by
  rw [claim_C4 [⟨"A", 4/5, "s", "t1"⟩, ⟨"B", 3/5, "s", "t2"⟩] (by simp)]
  have h1 : percent1 (([⟨"A", 4/5, "s", "t1"⟩, ⟨"B", 3/5, "s", "t2"⟩].map
      DiscoveryW.confidence).sum / ((([⟨"A", 4/5, "s", "t1"⟩, ⟨"B", 3/5, "s", "t2"⟩] :
        List DiscoveryW).length : ℚ))) = 700 := by
    norm_num [percent1, round_eq, Int.floor_eq_iff]
  rw [h1]
  rfl

end KnowledgeReport

namespace SmokeTest

theorem classify_mem (o : HttpOutcome) :
    classify o = PASS_str ∨ classify o = FAIL_str ∨ classify o = ERROR_str := by
  rcases o with msg | ⟨code, b⟩
  · exact Or.inr (Or.inr rfl)
  · by_cases hc : code = 200
    · subst hc
      rcases b with ⟨_ | ⟨cnd, urg, recs⟩⟩
      · exact Or.inr (Or.inr rfl)
      · cases cnd <;> cases urg <;> cases recs <;>
          first
            | exact Or.inl rfl
            | exact Or.inr (Or.inr rfl)
    · right ; left
      simp [classify, hc]

/-- Python's `"PASS" in status` holds exactly for the PASS status string
among the three the tool ever stores. -/
theorem passedCount_eq (rs : List TestResult)
    (h : ∀ r ∈ rs, r.status = PASS_str ∨ r.status = FAIL_str ∨ r.status = ERROR_str) :
    passedCount rs = (rs.filter (fun r => r.status = PASS_str)).length := by
  unfold passedCount
  congr 1
  apply List.filter_congr
  intro r hr
  rcases h r hr with h1 | h1 | h1 <;> rw [h1] <;> decide

/-- Claim C2: the outcome classification of each test case — an exception
during the call records ERROR, a non-200 response records FAIL, and a 200
response whose `analysis` keys are all present records PASS. -/
theorem claim_C2 (env : String → HttpOutcome) (c : TestCase) :
    (∀ msg, env c.text = HttpOutcome.exception msg →
      (runCase env c).status = ERROR_str) ∧
    (∀ code b, env c.text = HttpOutcome.response code b → code ≠ 200 →
      (runCase env c).status = FAIL_str) ∧
    (∀ b a cnd urg recs, env c.text = HttpOutcome.response 200 b →
      b.analysis = some a → a.condition = some cnd → a.urgency = some urg →
      a.recommendations = some recs → (runCase env c).status = PASS_str) := by
  refine ⟨?_, ?_, ?_⟩
  · intro msg h
    simp [runCase, h, classify]
  · intro code b h hne
    simp [runCase, h, classify, hne]
  · intro b a cnd urg recs h ha hc hu hr
    simp [runCase, h, classify, ha, hc, hu, hr]

/-- Witness for C2: each of the three outcomes at a concrete case. -/
theorem claim_C2_witness :
    (runCase (fun _ => HttpOutcome.exception "connection refused")
      ⟨"n", "txt", "e"⟩).status = ERROR_str ∧
    (runCase (fun _ => HttpOutcome.response 404 ⟨none⟩)
      ⟨"n", "txt", "e"⟩).status = FAIL_str ∧
    (runCase (fun _ => HttpOutcome.response 200
        ⟨some ⟨some "cardiac", some "high", some ["x", "y"]⟩⟩)
      ⟨"n", "txt", "e"⟩).status = PASS_str :=
  ⟨(claim_C2 (fun _ => HttpOutcome.exception "connection refused")
      ⟨"n", "txt", "e"⟩).1 "connection refused" rfl,
   (claim_C2 (fun _ => HttpOutcome.response 404 ⟨none⟩)
      ⟨"n", "txt", "e"⟩).2.1 404 ⟨none⟩ rfl (by decide),
   (claim_C2 (fun _ => HttpOutcome.response 200
        ⟨some ⟨some "cardiac", some "high", some ["x", "y"]⟩⟩)
      ⟨"n", "txt", "e"⟩).2.2 ⟨some ⟨some "cardiac", some "high", some ["x", "y"]⟩⟩
     ⟨some "cardiac", some "high", some ["x", "y"]⟩ "cardiac" "high" ["x", "y"]
     rfl rfl rfl rfl rfl⟩

/-- Claim C3: every one of the 5 fixed cases contributes exactly one
result, in run order; the summary numerator is the number of PASS results
and the denominator is 5, the length of the case list. -/
theorem claim_C3 (env : String → HttpOutcome) :
    (runSuite env test_cases).length = 5 ∧
    (runSuite env test_cases).map TestResult.caseName = test_cases.map TestCase.name ∧
    (summaryLine env).1 =
      ((runSuite env test_cases).filter (fun r => r.status = PASS_str)).length ∧
    (summaryLine env).2 = 5 := by
  refine ⟨by simp [runSuite, test_cases], by simp [runSuite, runCase], ?_, rfl⟩
  show passedCount (runSuite env test_cases) = _
  apply passedCount_eq
  intro r hr
  simp only [runSuite, List.mem_map] at hr
  obtain ⟨c, _, rfl⟩ := hr
  exact classify_mem (env c.text)

theorem runSuite_ext (env : String → HttpOutcome) :
    ∀ (cs1 cs2 : List TestCase),
      cs1.map TestCase.name = cs2.map TestCase.name →
      cs1.map TestCase.text = cs2.map TestCase.text →
      runSuite env cs1 = runSuite env cs2 := by
  intro cs1
  induction cs1 with
  | nil =>
    intro cs2 hn _
    cases cs2 with
    | nil => rfl
    | cons c cs => simp at hn
  | cons c cs ih =>
    intro cs2 hn ht
    cases cs2 with
    | nil => simp at hn
    | cons c' cs' =>
      simp only [List.map_cons, List.cons.injEq] at hn ht
      simp only [runSuite, List.map_cons]
      rw [show runCase env c = runCase env c' from by simp [runCase, hn.1, ht.1]]
      have := ih cs' hn.2 ht.2
      simp only [runSuite] at this
      rw [this]

/-- Claim C8: the `expected` field of the cases never influences the
recorded statuses or the summary — two runs over case lists that agree on
names and texts (differing only in `expected`) produce identical results
and counts. -/
theorem claim_C8 (env : String → HttpOutcome) (cs1 cs2 : List TestCase)
    (hn : cs1.map TestCase.name = cs2.map TestCase.name)
    (ht : cs1.map TestCase.text = cs2.map TestCase.text) :
    runSuite env cs1 = runSuite env cs2 ∧
    passedCount (runSuite env cs1) = passedCount (runSuite env cs2) ∧
    cs1.length = cs2.length := by
  have hs := runSuite_ext env cs1 cs2 hn ht
  refine ⟨hs, by rw [hs], ?_⟩
  have := congrArg List.length hn
  simpa using this

/-- Witness for C8: two singleton case lists differing only in `expected`
yield the same results. -/
theorem claim_C8_witness :
    runSuite (fun _ => HttpOutcome.exception "down") [⟨"n", "txt", "cardiac"⟩] =
      runSuite (fun _ => HttpOutcome.exception "down") [⟨"n", "txt", "endocrine"⟩] ∧
    passedCount (runSuite (fun _ => HttpOutcome.exception "down")
        [⟨"n", "txt", "cardiac"⟩]) =
      passedCount (runSuite (fun _ => HttpOutcome.exception "down")
        [⟨"n", "txt", "endocrine"⟩]) :=
  ⟨(claim_C8 (fun _ => HttpOutcome.exception "down")
      [⟨"n", "txt", "cardiac"⟩] [⟨"n", "txt", "endocrine"⟩] rfl rfl).1,
   (claim_C8 (fun _ => HttpOutcome.exception "down")
      [⟨"n", "txt", "cardiac"⟩] [⟨"n", "txt", "endocrine"⟩] rfl rfl).2.1⟩

/-- Counterexample to C1 as stated: an endpoint answering 200 with a body
lacking the `analysis` key does not abort the run — the `except Exception`
on line 62 of the source catches the lookup error, every one of the 5
cases records an ERROR result, and the loop runs to completion. -/
theorem claim_C1_counterexample :
    runSuite (fun _ => HttpOutcome.response 200 ⟨none⟩) test_cases =
      [⟨"Cardiac Emergency", ERROR_str⟩, ⟨"Stroke Symptoms", ERROR_str⟩,
       ⟨"Appendicitis", ERROR_str⟩, ⟨"Pneumonia", ERROR_str⟩,
       ⟨"Diabetic Emergency", ERROR_str⟩] := rfl

/-- Claim C1, amended: a 200 response whose JSON body lacks the `analysis`
key (or one of its sub-keys) raises a lookup error that IS caught by the
per-case `except Exception` handler — the case records ERROR and the run
still produces one result per case. -/
theorem claim_C1 (env : String → HttpOutcome) (c : TestCase) (b : PredictionResponse)
    (hresp : env c.text = HttpOutcome.response 200 b)
    (hmiss : b.analysis = none ∨ ∃ a, b.analysis = some a ∧
      (a.condition = none ∨ a.urgency = none ∨ a.recommendations = none)) :
    (runCase env c).status = ERROR_str ∧
    ∀ cs : List TestCase, (runSuite env cs).length = cs.length := by
  refine ⟨?_, fun cs => by simp [runSuite]⟩
  rcases hmiss with hnone | ⟨a, ha, hsub⟩
  · simp [runCase, classify, hresp, hnone]
  · rcases a with ⟨cnd, urg, recs⟩
    cases cnd <;> cases urg <;> cases recs <;>
      simp_all [runCase, classify, hresp]

/-- Witness for the amended C1: the missing-`analysis` 200 response is
recorded as ERROR. -/
theorem claim_C1_witness :
    (runCase (fun _ => HttpOutcome.response 200 ⟨none⟩) ⟨"n", "txt", "e"⟩).status =
      ERROR_str :=
  (claim_C1 (fun _ => HttpOutcome.response 200 ⟨none⟩) ⟨"n", "txt", "e"⟩ ⟨none⟩
    rfl (Or.inl rfl)).1

end SmokeTest
